import Mathlib

/-!
Verification of the driver `winding/main.py` of the TimeAwareRNN repository.

The development shallowly embeds the parts of the driver that the claims are
about: the per-trajectory train/dev/test split sizes and array slices, the
RRSE evaluation metric `prediction_error`, the cell-variant selection, the
mean training interval handed to the model, the no-gradient evaluation pass
with its explicit hidden-state hand-off, the best-dev / early-stopping epoch
loop, and the startup guard on the experiment folder.  Machine floats are
modelled as real numbers; where the behaviour at a division by zero matters,
an extended value type with the IEEE special values is used.
-/

namespace TimeAwareRNN

/-! Split sizes, from `frac_dev = 15 / 100`, `frac_test = 15 / 100` (lines
152-153) and the size lists (lines 249-253).  `frac_dev * n` is computed in
binary floating point and truncated by `astype(int)`; for every dataset-scale
`n` this equals the exact floor `15 * n / 100`, which is how it is embedded. -/

def NdevOf (n : ℕ) : ℕ := 15 * n / 100

def NtestOf (n : ℕ) : ℕ := 15 * n / 100

def NtrainOf (n : ℕ) : ℕ := n - NdevOf n - NtestOf n

/-- Ndev_num_list (line 249-250): dev sizes, one per trajectory length. -/
def Ndev_num_list (ns : List ℕ) : List ℕ := ns.map NdevOf

/-- Ntest_num_list (line 251-252): test sizes, one per trajectory length. -/
def Ntest_num_list (ns : List ℕ) : List ℕ := ns.map NtestOf

/-- Ntrain_num_list (line 253): train sizes, one per trajectory length. -/
def Ntrain_num_list (ns : List ℕ) : List ℕ := ns.map NtrainOf

/-! Per-trajectory slicing loop (lines 305-319).  Each slice function takes
the length `n` of the trajectory being sliced (the code reads `Ndev` and
`Ntrain` from the per-trajectory size lists) and the list being sliced.  The
`dt` slices deliberately mirror the source: they index the POOLED interval
array `dt` (built at line 230 with one row per sample of every file), not the
trajectory under consideration. -/

def XtrainSlice {α : Type} (n : ℕ) (x : List α) : List α := x.take (NtrainOf n)

def YtrainSlice {α : Type} (n : ℕ) (y : List α) : List α :=
  (y.drop 1).take (NtrainOf n)

def ttrainSlice {α : Type} (n : ℕ) (t : List α) : List α :=
  (t.drop 1).take (NtrainOf n)

def dttrainSlice {α : Type} (n : ℕ) (dtAll : List α) : List α :=
  dtAll.take (NtrainOf n)

def XdevSlice {α : Type} (n : ℕ) (x : List α) : List α :=
  (x.drop (NtrainOf n)).take (NdevOf n)

def YdevSlice {α : Type} (n : ℕ) (y : List α) : List α :=
  (y.drop (NtrainOf n + 1)).take (NdevOf n)

def tdevSlice {α : Type} (n : ℕ) (t : List α) : List α :=
  (t.drop (NtrainOf n + 1)).take (NdevOf n)

def dtdevSlice {α : Type} (n : ℕ) (dtAll : List α) : List α :=
  (dtAll.drop (NtrainOf n)).take (NdevOf n)

def XtestSlice {α : Type} (n : ℕ) (x : List α) : List α :=
  (x.drop (NtrainOf n + NdevOf n)).dropLast

def YtestSlice {α : Type} (n : ℕ) (y : List α) : List α :=
  y.drop (NtrainOf n + NdevOf n + 1)

def ttestSlice {α : Type} (n : ℕ) (t : List α) : List α :=
  t.drop (NtrainOf n + NdevOf n + 1)

def dttestSlice {α : Type} (n : ℕ) (dtAll : List α) : List α :=
  (dtAll.drop (NtrainOf n + NdevOf n)).dropLast

/-- C3: for every trajectory of length n, the dataset is cut into three
consecutive, contiguous, per-trajectory slices in the order train, dev, test,
with dev size floor(0.15 n), test size floor(0.15 n), and train size
n - dev - test, each computed from that trajectory's own length, never from
the pooled total.  The input slices tile the trajectory (minus the final
sample, which has no next-step target) and the output slices tile the
trajectory shifted by one. -/
theorem c3_per_trajectory_split {α : Type} (n : ℕ) (x y : List α)
    (hx : x.length = n) (hy : y.length = n) (htest : 1 ≤ NtestOf n) :
    NdevOf n = 15 * n / 100 ∧
    NtestOf n = 15 * n / 100 ∧
    NtrainOf n + NdevOf n + NtestOf n = n ∧
    (XtrainSlice n x).length = NtrainOf n ∧
    (XdevSlice n x).length = NdevOf n ∧
    XtrainSlice n x ++ XdevSlice n x ++ XtestSlice n x = x.dropLast ∧
    YtrainSlice n y ++ YdevSlice n y ++ YtestSlice n y = y.drop 1 ∧
    (∀ ns : List ℕ, Ndev_num_list ns = ns.map (fun m => 15 * m / 100)) ∧
    (∀ ns : List ℕ, Ntest_num_list ns = ns.map (fun m => 15 * m / 100)) ∧
    (∀ ns : List ℕ,
      Ntrain_num_list ns = ns.map (fun m => m - 15 * m / 100 - 15 * m / 100)) := by
  have hdiv : 15 * n / 100 * 100 ≤ 15 * n := Nat.div_mul_le_self (15 * n) 100
  have hdt : NdevOf n + NtestOf n ≤ n := by unfold NdevOf NtestOf; omega
  have htr_le : NtrainOf n ≤ n := by unfold NtrainOf; omega
  have hab : NtrainOf n + NdevOf n ≤ n := by unfold NtrainOf; omega
  have hab1 : NtrainOf n + NdevOf n ≤ n - 1 := by
    unfold NtrainOf NdevOf NtestOf at *; omega
  refine ⟨rfl, rfl, by unfold NtrainOf; omega, ?_, ?_, ?_, ?_,
    fun ns => rfl, fun ns => rfl, fun ns => rfl⟩
  · simp [XtrainSlice, hx]
    omega
  · simp [XdevSlice, hx]
    omega
  · unfold XtrainSlice XdevSlice XtestSlice
    rw [← List.take_add]
    rw [List.dropLast_eq_take, List.dropLast_eq_take, List.length_drop, hx]
    rw [← List.take_add]
    congr 1
    omega
  · unfold YtrainSlice YdevSlice YtestSlice
    have h1 : y.drop (NtrainOf n + 1) = (y.drop 1).drop (NtrainOf n) := by
      rw [List.drop_drop]
      congr 1
      omega
    have h2 : y.drop (NtrainOf n + NdevOf n + 1)
        = ((y.drop 1).drop (NtrainOf n)).drop (NdevOf n) := by
      rw [List.drop_drop, List.drop_drop]
      congr 1
      omega
    have h3 : ((y.drop 1).drop (NtrainOf n)).drop (NdevOf n)
        = (y.drop 1).drop (NtrainOf n + NdevOf n) := by
      rw [List.drop_drop]
    rw [h1, h2, ← List.take_add, h3, List.take_append_drop]

/-- C3 witness: the split of a 20-sample trajectory, evaluated concretely. -/
theorem c3_per_trajectory_split_witness :
    NdevOf 20 = 3 ∧ NtestOf 20 = 3 ∧
    NtrainOf 20 + NdevOf 20 + NtestOf 20 = 20 ∧
    XtrainSlice 20 (List.range 20) ++ XdevSlice 20 (List.range 20) ++
      XtestSlice 20 (List.range 20) = (List.range 20).dropLast := by
  have h := c3_per_trajectory_split (α := ℕ) 20 (List.range 20) (List.range 20)
    (by decide) (by decide) (by decide)
  exact ⟨by decide, by decide, h.2.2.1, h.2.2.2.2.2.1⟩

/-- C1: in the multi-trajectory port, the dt slices are taken from the pooled
interval array at per-trajectory offsets.  With two trajectories of 20
samples each (pooled N = 40), a trajectory's test input slice has length 2
while the dt slice handed to the model for the test split has length 22, so
the dt slice is NOT the same length as, nor index-aligned with, the test
input slice; the train and dev dt slices do keep the input slice's length. -/
theorem c1_pooled_dt_slice_length_mismatch :
    (XtestSlice 20 (List.range 20)).length = 2 ∧
    (dttestSlice 20 (List.replicate ([20, 20] : List ℕ).sum (1 / 10 : ℚ))).length
      = 22 ∧
    ¬ (dttestSlice 20 (List.replicate ([20, 20] : List ℕ).sum (1 / 10 : ℚ))).length
      = (XtestSlice 20 (List.range 20)).length ∧
    (dttrainSlice 20 (List.replicate ([20, 20] : List ℕ).sum (1 / 10 : ℚ))).length
      = (XtrainSlice 20 (List.range 20)).length ∧
    (dtdevSlice 20 (List.replicate ([20, 20] : List ℕ).sum (1 / 10 : ℚ))).length
      = (XdevSlice 20 (List.range 20)).length := by
  refine ⟨by decide, ?_, ?_, ?_, ?_⟩ <;>
    simp [dttestSlice, dttrainSlice, dtdevSlice, XtestSlice, XtrainSlice,
      XdevSlice, NtrainOf, NdevOf, NtestOf]

/-! RRSE prediction error, `prediction_error` (lines 278-287).  The numpy
float arrays of shape (sequence, n_outputs) are modelled as real matrices
indexed by `Fin T` (time steps) and `Fin C` (output channels); float
arithmetic is modelled by exact real arithmetic. -/

/-- Channel mean: one entry of `np.mean(truth, axis=0)`. -/
noncomputable def npColMean {T C : ℕ} (truth : Fin T → Fin C → ℝ) (c : Fin C) : ℝ :=
  (∑ t, truth t c) / T

/-- Summed squared error per channel:
one entry of `se = np.sum((truth - prediction) ** 2, axis=0)` (line 284). -/
noncomputable def chanSE {T C : ℕ} (truth prediction : Fin T → Fin C → ℝ)
    (c : Fin C) : ℝ :=
  ∑ t, (truth t c - prediction t c) ^ 2

/-- Scalar denominator `np.sum((truth - np.mean(truth, axis=0)) ** 2)`
(line 285): a single sum over all steps and all channels jointly. -/
noncomputable def rseDenom {T C : ℕ} (truth : Fin T → Fin C → ℝ) : ℝ :=
  ∑ t, ∑ c, (truth t c - npColMean truth c) ^ 2

/-- prediction_error (lines 278-287): per-channel relative squared errors
with the shared scalar denominator, square-rooted, averaged over channels
(`np.mean`), and scaled to a percentage. -/
noncomputable def prediction_error {T C : ℕ}
    (truth prediction : Fin T → Fin C → ℝ) : ℝ :=
  let se := fun c => chanSE truth prediction c
  let rse := fun c => se c / rseDenom truth
  let rrse := (∑ c, Real.sqrt (rse c)) / C
  100 * rrse

/-- C2: prediction_error returns 100 times the mean over the C channels of
the square root of the per-channel summed squared error divided by a single
global denominator, the sum over all T steps and all C channels jointly of
the squared deviation of truth from its per-channel mean.  The denominator
below does not depend on the channel index of the outer sum: one
variance-style normalizer is shared by all channels, with no per-channel
separation. -/
theorem c2_rrse_formula_global_denominator {T C : ℕ}
    (truth prediction : Fin T → Fin C → ℝ) :
    prediction_error truth prediction =
      100 * ((∑ c, Real.sqrt ((∑ t, (truth t c - prediction t c) ^ 2) /
        (∑ t, ∑ j, (truth t j - (∑ s, truth s j) / T) ^ 2))) / C) := rfl

/-! Numpy float64 special values, for the behaviour of `prediction_error`
when the denominator is zero (C9).  Numpy does not raise on float division
by zero: `x / 0.0` is `inf` for `x > 0`, `-inf` for `x < 0` and `nan` for
`x = 0`; `sqrt` and `mean` propagate the special values.  `NPVal` models a
numpy float64 scalar as a finite real or one of the special values. -/

inductive NPVal where
  | val : ℝ → NPVal
  | posInf : NPVal
  | negInf : NPVal
  | nan : NPVal

/-- Finiteness of a numpy scalar, as in `np.isfinite`. -/
def NPVal.isFinite : NPVal → Bool
  | .val _ => true
  | _ => false

/-- Float division of finite operands, with the IEEE division-by-zero rule. -/
noncomputable def npDiv (a b : ℝ) : NPVal :=
  if b ≠ 0 then .val (a / b)
  else if 0 < a then .posInf
  else if a < 0 then .negInf
  else .nan

/-- Float square root: `sqrt nan = nan`, `sqrt inf = inf`, and a negative
finite argument yields `nan`. -/
noncomputable def npSqrt : NPVal → NPVal
  | .val x => if x < 0 then .nan else .val (Real.sqrt x)
  | .posInf => .posInf
  | .negInf => .nan
  | .nan => .nan

/-- Float addition on possibly special values: `nan` absorbs, opposite
infinities give `nan`, an infinity absorbs finite values. -/
def npAdd : NPVal → NPVal → NPVal
  | .nan, _ => .nan
  | _, .nan => .nan
  | .posInf, .negInf => .nan
  | .negInf, .posInf => .nan
  | .posInf, _ => .posInf
  | _, .posInf => .posInf
  | .negInf, _ => .negInf
  | _, .negInf => .negInf
  | .val a, .val b => .val (a + b)

/-- Division of a possibly special value by a count, as in the final step of
`np.mean`; `n = 0` (mean of an empty array) follows the IEEE rule. -/
noncomputable def npDivNat (v : NPVal) (n : ℕ) : NPVal :=
  match v with
  | .val x =>
      if n = 0 then (if 0 < x then .posInf else if x < 0 then .negInf else .nan)
      else .val (x / n)
  | .posInf => .posInf
  | .negInf => .negInf
  | .nan => .nan

/-- Float sum of an indexed family, accumulated from `0.0` as numpy does. -/
def npSum {C : ℕ} (f : Fin C → NPVal) : NPVal :=
  (List.ofFn f).foldl npAdd (.val 0)

/-- Float mean `np.mean` of an indexed family: sum divided by count. -/
noncomputable def npMeanFin {C : ℕ} (f : Fin C → NPVal) : NPVal :=
  npDivNat (npSum f) C

/-- Scaling by the positive constant 100 (line 287). -/
def npScale100 : NPVal → NPVal
  | .val x => .val (100 * x)
  | .posInf => .posInf
  | .negInf => .negInf
  | .nan => .nan

/-- prediction_error with the float special values made explicit: identical
to `prediction_error` except that the division by the scalar denominator,
the square root, the channel mean and the final scaling follow the numpy
float64 rules instead of total real division. -/
noncomputable def prediction_errorNP {T C : ℕ}
    (truth prediction : Fin T → Fin C → ℝ) : NPVal :=
  npScale100 (npMeanFin
    (fun c => npSqrt (npDiv (chanSE truth prediction c) (rseDenom truth))))

lemma npAdd_absorbing (acc v : NPVal) (hacc : acc ≠ .negInf)
    (hv : v = .posInf ∨ v = .nan) :
    npAdd acc v = .posInf ∨ npAdd acc v = .nan := by
  rcases hv with rfl | rfl <;> cases acc <;> simp_all [npAdd]

lemma foldl_npAdd_absorbing (l : List NPVal) (acc : NPVal)
    (hl : ∀ v ∈ l, v = .posInf ∨ v = .nan)
    (hacc : acc = .posInf ∨ acc = .nan) :
    l.foldl npAdd acc = .posInf ∨ l.foldl npAdd acc = .nan := by
  induction l generalizing acc with
  | nil => simpa using hacc
  | cons v rest ih =>
      have hv := hl v (by simp)
      have hstep : npAdd acc v = .posInf ∨ npAdd acc v = .nan := by
        refine npAdd_absorbing acc v ?_ hv
        rcases hacc with rfl | rfl <;> simp
      simpa using ih (npAdd acc v)
        (fun w hw => hl w (List.mem_cons_of_mem _ hw)) hstep

lemma chanSE_nonneg {T C : ℕ} (truth prediction : Fin T → Fin C → ℝ)
    (c : Fin C) : 0 ≤ chanSE truth prediction c :=
  Finset.sum_nonneg fun _ _ => sq_nonneg _

lemma rseDenom_of_constant_channels {T C : ℕ} (truth : Fin T → Fin C → ℝ)
    (g : Fin C → ℝ) (hconst : ∀ t c, truth t c = g c) :
    rseDenom truth = 0 := by
  unfold rseDenom npColMean
  rcases Nat.eq_zero_or_pos T with hT | hT
  · subst hT
    simp
  · have hTc : (T : ℝ) ≠ 0 := Nat.cast_ne_zero.mpr hT.ne'
    have hmean : ∀ c, (∑ s, truth s c) = (T : ℝ) * g c := by
      intro c
      simp [hconst, Finset.sum_const, Finset.card_univ, nsmul_eq_mul]
    refine Finset.sum_eq_zero fun t _ => Finset.sum_eq_zero fun c _ => ?_
    rw [hconst t c, hmean c, mul_div_cancel_left₀ _ hTc]
    ring

/-- C9: prediction_error divides by the total centered sum of squares of the
truth with no guard.  For every truth whose channels are each constant over
time, that denominator is zero and the returned value is non-finite (inf or
nan, by the numpy float rules) rather than an error being raised:
prediction_error is well-defined only when the truth is not constant in
every channel. -/
theorem c9_constant_truth_divides_by_zero {T C : ℕ}
    (truth prediction : Fin T → Fin C → ℝ) (g : Fin C → ℝ)
    (hconst : ∀ t c, truth t c = g c) :
    rseDenom truth = 0 ∧
    (prediction_errorNP truth prediction).isFinite = false := by
  have hden : rseDenom truth = 0 := rseDenom_of_constant_channels truth g hconst
  refine ⟨hden, ?_⟩
  have hentry : ∀ c : Fin C,
      npSqrt (npDiv (chanSE truth prediction c) (rseDenom truth)) = .posInf ∨
      npSqrt (npDiv (chanSE truth prediction c) (rseDenom truth)) = .nan := by
    intro c
    have hse := chanSE_nonneg truth prediction c
    rw [hden]
    unfold npDiv
    rcases lt_or_eq_of_le hse with hpos | hzero
    · left
      simp [hpos, npSqrt]
    · right
      simp [← hzero, npSqrt]
  unfold prediction_errorNP npMeanFin npSum
  rcases C with _ | m
  · simp [List.ofFn, npDivNat, npScale100, NPVal.isFinite]
  · rw [List.ofFn_succ]
    have hhead : npAdd (.val 0) (npSqrt (npDiv
        (chanSE truth prediction 0) (rseDenom truth))) = .posInf ∨
        npAdd (.val 0) (npSqrt (npDiv
        (chanSE truth prediction 0) (rseDenom truth))) = .nan := by
      refine npAdd_absorbing _ _ (by simp) (hentry 0)
    have hfold := foldl_npAdd_absorbing
      (List.ofFn fun i : Fin m => npSqrt (npDiv
        (chanSE truth prediction i.succ) (rseDenom truth)))
      _ (by
        intro v hv
        rw [List.mem_ofFn] at hv
        obtain ⟨i, rfl⟩ := hv
        exact hentry i.succ) hhead
    simp only [List.foldl_cons]
    rcases hfold with hf | hf <;> rw [hf] <;> simp [npDivNat, npScale100,
      NPVal.isFinite]

/-- C9 witness: a 2-step, 1-channel constant truth makes the denominator
zero and the prediction error non-finite. -/
theorem c9_constant_truth_divides_by_zero_witness :
    rseDenom ((fun _ _ => (1 : ℝ)) : Fin 2 → Fin 1 → ℝ) = 0 ∧
    (prediction_errorNP ((fun _ _ => (1 : ℝ)) : Fin 2 → Fin 1 → ℝ)
      (fun _ _ => 0)).isFinite = false :=
  c9_constant_truth_divides_by_zero _ _ (fun _ => 1) (fun _ _ => rfl)

/-! Cell-variant selection (lines 372-381).  The argparse `choices` restrict
`model` to GRU / GRUinc / ARNN / ARNNinc and `time_aware` to no / input /
variable; the selection chain itself is total on the model choices and its
only error branch is the `NotImplementedError` for an unknown model name. -/

inductive CellKind where
  | GRUCell : CellKind
  | HOGRUCell : CellKind
  | IncrHOGRUCell : CellKind
  | HOARNNCell : CellKind
  | IncrHOARNNCell : CellKind
deriving DecidableEq

/-- cell_factory selection chain (lines 372-381): `GRU` takes the plain cell
exactly when `time_aware == "no"` and the high-order cell otherwise; the
other model names select their cell regardless of `time_aware`. -/
def cell_factory (model time_aware : String) : Except String CellKind :=
  if model = "GRU" then
    .ok (if time_aware = "no" then .GRUCell else .HOGRUCell)
  else if model = "GRUinc" then .ok .IncrHOGRUCell
  else if model = "ARNN" then .ok .HOARNNCell
  else if model = "ARNNinc" then .ok .IncrHOARNNCell
  else .error ("unknown model type " ++ model)

/-- C6 counterexample: combinations the claim calls incompatible construct a
cell successfully instead of failing: the incremental baseline together with
variable-dt time-awareness, and the high-order ARNN cell with time-awareness
disabled, both silently yield a cell variant.  No ConfigurationError exists
anywhere in the driver. -/
theorem c6_counterexample_silent_cell_selection :
    cell_factory "GRUinc" "variable" = .ok CellKind.IncrHOGRUCell ∧
    cell_factory "ARNN" "no" = .ok CellKind.HOARNNCell := by
  exact ⟨rfl, rfl⟩

/-- C6 amended: no model/time_aware combination fails.  Cell selection is
total on the four argparse model choices: GRU maps to the plain cell when
time_aware is "no" and to the high-order GRU cell for any other value, and
GRUinc, ARNN, ARNNinc map to their fixed cell variant regardless of
time_aware; the only error branch fires for a model name outside the
argparse choices, so model construction never raises on an incompatible
combination and instead silently selects a cell variant. -/
theorem c6_cell_selection_total :
    (∀ t : String, cell_factory "GRU" t =
      .ok (if t = "no" then CellKind.GRUCell else CellKind.HOGRUCell)) ∧
    (∀ t : String, cell_factory "GRUinc" t = .ok CellKind.IncrHOGRUCell) ∧
    (∀ t : String, cell_factory "ARNN" t = .ok CellKind.HOARNNCell) ∧
    (∀ t : String, cell_factory "ARNNinc" t = .ok CellKind.IncrHOARNNCell) :=
  ⟨fun _ => rfl, fun _ => rfl, fun _ => rfl, fun _ => rfl⟩

/-! Mean training interval (line 383): `dt_mean = np.mean(dttrain[0])`, the
mean of the FIRST trajectory's train-interval slice.  The pooled interval
array is built at line 230 as `sample_rate * np.ones((N, 1))`, i.e. a
constant list, which is why this mean coincides with the mean over the
training intervals of all trajectories. -/

/-- Mean of a list of rationals, as `np.mean` of a float vector. -/
def listMean (l : List ℚ) : ℚ := l.sum / l.length

/-- Pooled interval array `dt = sample_rate * np.ones((N, 1))` (line 230). -/
def dtAllOf (rate : ℚ) (N : ℕ) : List ℚ := List.replicate N rate

/-- dt_mean (line 383): mean of the first trajectory's train dt slice. -/
def dt_mean (rate : ℚ) (ns : List ℕ) : ℚ :=
  listMean (dttrainSlice ns.headI (dtAllOf rate ns.sum))

/-- Modelled from the spec: the training-set intervals of all trajectories,
i.e. the concatenation of every trajectory's train dt slice. -/
def allTrainIntervals (rate : ℚ) (ns : List ℕ) : List ℚ :=
  (ns.map (fun n => dttrainSlice n (dtAllOf rate ns.sum))).flatten

lemma dttrainSlice_replicate (n N : ℕ) (r : ℚ) :
    dttrainSlice n (List.replicate N r) = List.replicate (min (NtrainOf n) N) r := by
  simp [dttrainSlice, List.take_replicate]

lemma listMean_replicate (k : ℕ) (r : ℚ) (hk : 0 < k) :
    listMean (List.replicate k r) = r := by
  have hkc : (k : ℚ) ≠ 0 := Nat.cast_ne_zero.mpr hk.ne'
  unfold listMean
  rw [List.sum_replicate, List.length_replicate, nsmul_eq_mul,
    mul_div_cancel_left₀ _ hkc]

lemma join_map_replicate (ks : List ℕ) (r : ℚ) :
    (ks.map (fun k => List.replicate k r)).flatten = List.replicate ks.sum r := by
  induction ks with
  | nil => simp
  | cons k rest ih =>
      simp only [List.map_cons, List.flatten_cons, List.sum_cons, ih]
      rw [List.replicate_add]

/-- C7: the mean interval handed to the model equals the mean over all
training intervals of all trajectories.  The code takes the mean of the
first trajectory's slice only, but the pooled interval array is the constant
`sample_rate * np.ones((N, 1))`, so the two means coincide whenever the
first trajectory's train slice is nonempty. -/
theorem c7_dt_mean_equals_global_training_mean (rate : ℚ) (ns : List ℕ)
    (hne : ns ≠ []) (hpos : 0 < NtrainOf ns.headI) :
    dt_mean rate ns = rate ∧
    dt_mean rate ns = listMean (allTrainIntervals rate ns) := by
  obtain ⟨a, l, rfl⟩ := List.exists_cons_of_ne_nil hne
  have hhead : (a :: l).headI = a := rfl
  rw [hhead] at hpos
  have hle : NtrainOf a ≤ (a :: l).sum := by
    have h1 : NtrainOf a ≤ a := by unfold NtrainOf; omega
    have h2 : a ≤ (a :: l).sum := by simp [List.sum_cons]
    exact h1.trans h2
  have hmean1 : dt_mean rate (a :: l) = rate := by
    unfold dt_mean dtAllOf
    rw [hhead, dttrainSlice_replicate, min_eq_left hle]
    exact listMean_replicate _ _ hpos
  refine ⟨hmean1, ?_⟩
  have hjoin : allTrainIntervals rate (a :: l)
      = List.replicate (((a :: l).map
          (fun n => min (NtrainOf n) ((a :: l).sum))).sum) rate := by
    unfold allTrainIntervals dtAllOf
    have hmaps : (a :: l).map (fun n =>
        dttrainSlice n (List.replicate ((a :: l).sum) rate))
        = ((a :: l).map (fun n => min (NtrainOf n) ((a :: l).sum))).map
          (fun k => List.replicate k rate) := by
      rw [List.map_map]
      exact List.map_congr_left fun n _ => dttrainSlice_replicate _ _ _
    rw [hmaps, join_map_replicate]
  have hKpos : 0 < ((a :: l).map
      (fun n => min (NtrainOf n) ((a :: l).sum))).sum := by
    rw [List.map_cons, List.sum_cons]
    have h1 : 0 < min (NtrainOf a) ((a :: l).sum) := by
      rw [min_eq_left hle]
      exact hpos
    omega
  rw [hmean1, hjoin, listMean_replicate _ _ hKpos]

/-- C7 witness: two trajectories of 10 and 5 samples at rate 1/10. -/
theorem c7_dt_mean_equals_global_training_mean_witness :
    dt_mean (1 / 10) [10, 5] = 1 / 10 ∧
    dt_mean (1 / 10) [10, 5] = listMean (allTrainIntervals (1 / 10) [10, 5]) :=
  c7_dt_mean_equals_global_training_mean (1 / 10) [10, 5] (by decide) (by decide)

/-! Evaluation pass (lines 473-570): the no-gradient forward rollout over
the three splits.  The MIMO network lives outside this repository slice, so
the forward function (returning predictions and the per-step hidden-state
trajectory), the prediction-error evaluation and the hidden-state values are
abstract parameters; what is embedded is the call pattern of the driver:
which state0 each forward call receives, and when the test call is issued.
The driver extracts the handed-over state as `h_pred[:, -1, :]`, modelled by
taking the last element of the hidden trajectory. -/

inductive Split where
  | train : Split
  | dev : Split
  | test : Split
deriving DecidableEq

structure ForwardCall (S : Type) where
  split : Split
  state0 : Option S
deriving DecidableEq

/-- Evaluation pass (lines 476, 480-481, 522, 528-530): the train forward
call is issued without state0, the dev call receives the last hidden state
of the train rollout, and, exactly when the dev error improves strictly on
the best so far, a test call is issued with the last hidden state of the dev
rollout.  Returns the forward calls in issue order. -/
def evalPass {S Y : Type} [Inhabited S]
    (forward : Split → Option S → Y × List S)
    (predErr : Split → Y → ℚ) (best_dev_error : ℚ) :
    List (ForwardCall S) :=
  if predErr .dev (forward .dev
      (some ((forward .train none).2.getLastD default))).1 < best_dev_error then
    [⟨.train, none⟩,
     ⟨.dev, some ((forward .train none).2.getLastD default)⟩,
     ⟨.test, some ((forward .dev
        (some ((forward .train none).2.getLastD default))).2.getLastD default)⟩]
  else
    [⟨.train, none⟩,
     ⟨.dev, some ((forward .train none).2.getLastD default)⟩]

/-- C4: in every evaluation pass the hidden state is threaded explicitly:
the train forward call is the only one issued without state0, the dev call
receives the last hidden state produced by the train call, and the test
call (issued on strict dev improvement) receives the last hidden state
produced by the dev call; dev and test are never started from the implicit
zero state. -/
theorem c4_hidden_state_threading {S Y : Type} [Inhabited S]
    (forward : Split → Option S → Y × List S)
    (predErr : Split → Y → ℚ) (best_dev_error : ℚ) :
    (∀ c ∈ evalPass forward predErr best_dev_error,
      c.state0 = none ↔ c.split = Split.train) ∧
    (⟨Split.train, none⟩ : ForwardCall S) ∈
      evalPass forward predErr best_dev_error ∧
    (∀ c ∈ evalPass forward predErr best_dev_error, c.split = Split.dev →
      c.state0 = some ((forward Split.train none).2.getLastD default)) ∧
    (∀ c ∈ evalPass forward predErr best_dev_error, c.split = Split.test →
      c.state0 = some ((forward Split.dev
        (some ((forward Split.train none).2.getLastD default))).2.getLastD
          default)) ∧
    ((⟨Split.test, some ((forward Split.dev
        (some ((forward Split.train none).2.getLastD default))).2.getLastD
          default)⟩ : ForwardCall S) ∈
        evalPass forward predErr best_dev_error ↔
      predErr Split.dev (forward Split.dev
        (some ((forward Split.train none).2.getLastD default))).1
          < best_dev_error) := by
  by_cases himp : predErr Split.dev (forward Split.dev
      (some ((forward Split.train none).2.getLastD default))).1 < best_dev_error
  · refine ⟨?_, ?_, ?_, ?_, ?_⟩ <;>
      simp only [evalPass, if_pos himp, List.mem_cons, List.mem_singleton]
    · rintro c (rfl | rfl | rfl | hc) <;> simp_all
    · simp
    · rintro c (rfl | rfl | rfl | hc) <;> simp_all
    · rintro c (rfl | rfl | rfl | hc) <;> simp_all
    · exact ⟨fun _ => himp, fun _ => by simp⟩
  · refine ⟨?_, ?_, ?_, ?_, ?_⟩ <;>
      simp only [evalPass, if_neg himp, List.mem_cons, List.mem_singleton]
    · rintro c (rfl | rfl | hc) <;> simp_all
    · simp
    · rintro c (rfl | rfl | hc) <;> simp_all
    · rintro c (rfl | rfl | hc) <;> simp_all
    · exact ⟨fun hmem => by simp_all, fun hcond => absurd hcond himp⟩

/-- C4 witness: a concrete forward function whose hidden trajectory ends in
7 threads that state into the dev and test calls. -/
theorem c4_hidden_state_threading_witness :
    (⟨Split.train, none⟩ : ForwardCall ℕ) ∈
      evalPass (fun _ _ => ((0 : ℕ), [7])) (fun _ _ => (0 : ℚ)) 1 ∧
    (⟨Split.test, some 7⟩ : ForwardCall ℕ) ∈
      evalPass (fun _ _ => ((0 : ℕ), [7])) (fun _ _ => (0 : ℚ)) 1 := by
  have h := c4_hidden_state_threading
    (fun _ _ => ((0 : ℕ), [7])) (fun _ _ => (0 : ℚ)) 1
  refine ⟨h.2.1, ?_⟩
  have ht := (h.2.2.2.2).mpr (by decide)
  simpa using ht

/-! Epoch loop with best-dev bookkeeping and early stopping (lines 461-577).
The per-epoch dev and test errors are abstracted as functions of the epoch
index (they are produced by evaluating the external network); the embedded
part is the driver bookkeeping: evaluation every `eval_epochs` epochs, the
strict-improvement test, the persistence hand-off of the best snapshot, and
the break after more than `max_epochs_no_decrease` epochs without a new
best dev error. -/

/-- Early-stopping threshold (line 465): a hard-coded module constant. -/
def max_epochs_no_decrease : ℕ := 1000

/-- Parsed command-line configuration (argparse definitions, lines 50-123).
These are all the configurable values of the program. -/
structure Config where
  time_aware : String
  model : String
  interpol : String
  gamma : ℚ
  step_size : ℚ
  missing : ℚ
  k_state : ℕ
  scheme : String
  batch_size : ℕ
  epochs : ℕ
  lr : ℚ
  bptt : ℕ
  dropout : ℚ
  l2 : ℚ
  save : String
  eval_epochs : ℕ
  seed : ℕ
  reset : Bool

/-- Early-stopping threshold used by a run with parsed configuration
`paras`: the driver never reads the configuration for it (line 465). -/
def stopThresholdOf (_paras : Config) : ℕ := max_epochs_no_decrease

/-- Loop bookkeeping: best dev error so far, the epoch that achieved it,
the test error recomputed at that epoch, and the persistence events
(epoch, dev error, corresponding test error) handed off so far. -/
structure TrainState where
  best_dev_error : ℚ
  best_dev_epoch : ℕ
  error_test : ℚ
  persisted : List (ℕ × ℚ × ℚ)
deriving DecidableEq

/-- Initial bookkeeping (lines 461-463): `best_dev_error = 1.0e5`,
`best_dev_epoch = 0`, `error_test = -1`, nothing persisted. -/
def initTrainState : TrainState := ⟨100000, 0, -1, []⟩

/-- One epoch of the loop body (lines 472-577): on an evaluation epoch, a
strictly improved dev error updates the best, recomputes the test error and
hands the snapshot off for persistence; otherwise, if more than
`max_epochs_no_decrease` epochs have passed since the best epoch, the loop
breaks.  Returns the new state and the break flag. -/
def epochStep (devErr testErr : ℕ → ℚ) (eval_epochs : ℕ)
    (s : TrainState) (epoch : ℕ) : TrainState × Bool :=
  if epoch % eval_epochs = 0 then
    if devErr epoch < s.best_dev_error then
      (⟨devErr epoch, epoch, testErr epoch,
        s.persisted ++ [(epoch, devErr epoch, testErr epoch)]⟩, false)
    else if max_epochs_no_decrease < epoch - s.best_dev_epoch then (s, true)
    else (s, false)
  else (s, false)

/-- Epoch loop (line 468): epochs are consumed in order; a true break flag
stops the loop, and the epoch at which the break was taken is returned. -/
def runLoop (devErr testErr : ℕ → ℚ) (eval_epochs : ℕ) :
    List ℕ → TrainState → TrainState × Option ℕ
  | [], s => (s, none)
  | e :: rest, s =>
      if (epochStep devErr testErr eval_epochs s e).2 then
        ((epochStep devErr testErr eval_epochs s e).1, some e)
      else
        runLoop devErr testErr eval_epochs rest
          (epochStep devErr testErr eval_epochs s e).1

/-- Full run (lines 468-577): epochs 1, ..., epochs. -/
def trainingRun (devErr testErr : ℕ → ℚ) (eval_epochs epochs : ℕ) :
    TrainState × Option ℕ :=
  runLoop devErr testErr eval_epochs (List.range' 1 epochs) initTrainState

/-- Configuration with the argparse default values (lines 50-123). -/
def defaultConfig : Config :=
  ⟨"variable", "GRU", "constant", 1, 1, 0, 20, "Euler", 16, 1000, 1 / 1000,
    20, 0, 0, "results", 20, 0, false⟩

/-- Configuration differing from the defaults in every field. -/
def otherConfig : Config :=
  ⟨"no", "ARNNinc", "linear", 2, 1 / 2, 1 / 2, 5, "RK4", 512, 4000, 1 / 100,
    10, 1 / 10, 1 / 100, "res2", 1, 7, true⟩

/-- C5 counterexample: the number of no-improvement epochs after which
training stops is NOT a configuration value: two runs whose parsed
configurations differ in every field still stop after the same hard-coded
1000 no-improvement epochs, and no argparse field controls it. -/
theorem c5_counterexample_threshold_not_configurable :
    stopThresholdOf defaultConfig = 1000 ∧
    stopThresholdOf otherConfig = 1000 ∧
    defaultConfig ≠ otherConfig := by
  refine ⟨rfl, rfl, fun h => ?_⟩
  exact absurd (congrArg Config.seed h) (by decide)

/-- C5 amended: the only early exit of the epoch loop is the training-level
no-improvement policy, but its threshold is the hard-coded constant 1000
(line 465), not a configuration value: for every configuration the threshold
is `max_epochs_no_decrease = 1000`; the loop body breaks exactly at an
evaluation epoch whose dev error does not improve the best and that lies
more than 1000 epochs past the best epoch; and whenever the loop stops
early, it does so at an epoch of the schedule via that break condition. -/
theorem c5_early_stop_policy (devErr testErr : ℕ → ℚ) (eval_epochs : ℕ) :
    (∀ paras : Config, stopThresholdOf paras = 1000) ∧
    (∀ (s : TrainState) (e : ℕ),
      (epochStep devErr testErr eval_epochs s e).2 = true ↔
        (e % eval_epochs = 0 ∧ ¬ devErr e < s.best_dev_error ∧
          max_epochs_no_decrease < e - s.best_dev_epoch)) ∧
    (∀ (es : List ℕ) (s : TrainState) (e : ℕ),
      (runLoop devErr testErr eval_epochs es s).2 = some e →
        e ∈ es ∧ ∃ s' : TrainState,
          (epochStep devErr testErr eval_epochs s' e).2 = true) := by
  refine ⟨fun _ => rfl, ?_, ?_⟩
  · intro s e
    by_cases h1 : e % eval_epochs = 0
    · by_cases h2 : devErr e < s.best_dev_error
      · simp [epochStep, h1, h2]
      · by_cases h3 : max_epochs_no_decrease < e - s.best_dev_epoch
        · simp [epochStep, h1, h2, h3]
        · simp [epochStep, h1, h2, h3]
    · simp [epochStep, h1]
  · intro es
    induction es with
    | nil => intro s e h; simp [runLoop] at h
    | cons a rest ih =>
        intro s e h
        by_cases hb : (epochStep devErr testErr eval_epochs s a).2 = true
        · rw [runLoop, if_pos hb] at h
          simp only at h
          obtain rfl : a = e := by simpa using h
          exact ⟨List.mem_cons_self a rest, s, hb⟩
        · rw [runLoop, if_neg hb] at h
          obtain ⟨hmem, s', hs'⟩ :=
            ih (epochStep devErr testErr eval_epochs s a).1 e h
          exact ⟨List.mem_cons_of_mem a hmem, s', hs'⟩

/-- C5 witness: with evaluation every epoch, a dev error that never improves
a zero best, and epoch 1001, the loop body takes the break. -/
theorem c5_early_stop_policy_witness :
    (epochStep (fun _ => (1 : ℚ)) (fun _ => 0) 1 ⟨0, 0, -1, []⟩ 1001).2
      = true := by
  have h := c5_early_stop_policy (fun _ => (1 : ℚ)) (fun _ => 0) 1
  exact (h.2.1 ⟨0, 0, -1, []⟩ 1001).mpr ⟨by decide, by decide, by decide⟩

lemma epochStep_best_le (devErr testErr : ℕ → ℚ) (eval_epochs : ℕ)
    (s : TrainState) (e : ℕ) :
    ((epochStep devErr testErr eval_epochs s e).1).best_dev_error
      ≤ s.best_dev_error := by
  unfold epochStep
  split_ifs with h1 h2 h3 <;> simp
  exact le_of_lt h2

lemma runLoop_best_le (devErr testErr : ℕ → ℚ) (eval_epochs : ℕ)
    (es : List ℕ) (s : TrainState) :
    ((runLoop devErr testErr eval_epochs es s).1).best_dev_error
      ≤ s.best_dev_error := by
  induction es generalizing s with
  | nil => simp [runLoop]
  | cons a rest ih =>
      rw [runLoop]
      by_cases hb : (epochStep devErr testErr eval_epochs s a).2 = true
      · rw [if_pos hb]
        exact epochStep_best_le devErr testErr eval_epochs s a
      · rw [if_neg hb]
        exact (ih _).trans (epochStep_best_le devErr testErr eval_epochs s a)

lemma epochStep_invariant (devErr testErr : ℕ → ℚ) (eval_epochs : ℕ)
    (s : TrainState) (e : ℕ)
    (hs : s.persisted ≠ [] → s.error_test = testErr s.best_dev_epoch) :
    ((epochStep devErr testErr eval_epochs s e).1).persisted ≠ [] →
      ((epochStep devErr testErr eval_epochs s e).1).error_test
        = testErr ((epochStep devErr testErr eval_epochs s e).1).best_dev_epoch := by
  unfold epochStep
  split_ifs with h1 h2 h3 <;> simp_all

lemma runLoop_invariant (devErr testErr : ℕ → ℚ) (eval_epochs : ℕ)
    (es : List ℕ) (s : TrainState)
    (hs : s.persisted ≠ [] → s.error_test = testErr s.best_dev_epoch) :
    ((runLoop devErr testErr eval_epochs es s).1).persisted ≠ [] →
      ((runLoop devErr testErr eval_epochs es s).1).error_test
        = testErr ((runLoop devErr testErr eval_epochs es s).1).best_dev_epoch := by
  induction es generalizing s with
  | nil => simpa [runLoop] using hs
  | cons a rest ih =>
      rw [runLoop]
      by_cases hb : (epochStep devErr testErr eval_epochs s a).2 = true
      · rw [if_pos hb]
        exact epochStep_invariant devErr testErr eval_epochs s a hs
      · rw [if_neg hb]
        exact ih _ (epochStep_invariant devErr testErr eval_epochs s a hs)

/-- C8: the best snapshot, its predictions and its test error are recomputed
and handed off for persistence exactly at an evaluation epoch whose dev
error is strictly lower than the best so far (first two conjuncts: on
strict improvement the persistence list grows by the snapshot of this epoch
and the best is rebound to it; in every other case the bookkeeping is
untouched); consequently the recorded best dev error never increases over a
run, and at the end of any run the recorded test error is the one
recomputed at the epoch that last achieved the best dev error. -/
theorem c8_best_dev_snapshot (devErr testErr : ℕ → ℚ) (eval_epochs : ℕ) :
    (∀ (s : TrainState) (e : ℕ),
      (e % eval_epochs = 0 ∧ devErr e < s.best_dev_error) →
        (epochStep devErr testErr eval_epochs s e).1 =
          ⟨devErr e, e, testErr e,
            s.persisted ++ [(e, devErr e, testErr e)]⟩) ∧
    (∀ (s : TrainState) (e : ℕ),
      ¬ (e % eval_epochs = 0 ∧ devErr e < s.best_dev_error) →
        (epochStep devErr testErr eval_epochs s e).1 = s) ∧
    (∀ (es : List ℕ) (s : TrainState),
      ((runLoop devErr testErr eval_epochs es s).1).best_dev_error
        ≤ s.best_dev_error) ∧
    (∀ epochs : ℕ,
      ((trainingRun devErr testErr eval_epochs epochs).1).persisted ≠ [] →
        ((trainingRun devErr testErr eval_epochs epochs).1).error_test
          = testErr
            ((trainingRun devErr testErr eval_epochs epochs).1).best_dev_epoch) := by
  refine ⟨?_, ?_, runLoop_best_le devErr testErr eval_epochs, ?_⟩
  · rintro s e ⟨h1, h2⟩
    simp [epochStep, h1, h2]
  · intro s e h
    unfold epochStep
    split_ifs with h1 h2 h3 <;> simp_all
  · intro epochs
    exact runLoop_invariant devErr testErr eval_epochs _ initTrainState
      (by intro h; exact absurd rfl h)

/-- C8 witness: epoch 1 with dev error 5 improves the initial best 1.0e5 and
persists the snapshot (1, 5, 3) with its recomputed test error 3. -/
theorem c8_best_dev_snapshot_witness :
    (epochStep (fun _ => (5 : ℚ)) (fun _ => (3 : ℚ)) 1 initTrainState 1).1
      = ⟨5, 1, 3, [(1, 5, 3)]⟩ := by
  have h := c8_best_dev_snapshot (fun _ => (5 : ℚ)) (fun _ => (3 : ℚ)) 1
  have := h.1 initTrainState 1 ⟨by decide, by decide⟩
  simpa [initTrainState] using this

/-! Startup guard on the experiment folder (lines 128-140): if
`save/log.txt` exists, a finished run (content containing "Finished")
without `--reset` exits before any model is constructed, and every other
case with the file present recursively deletes the save folder before
training begins. -/

/-- Boolean test that the first list is an initial segment of the second. -/
def seqStartsWith : List Char → List Char → Bool
  | [], _ => true
  | _ :: _, [] => false
  | a :: as, b :: bs => a == b && seqStartsWith as bs

/-- Boolean occurrence test of `p` as a contiguous subsequence, as used by
the Python expression `"Finished" in content`. -/
def occursIn (p : List Char) : List Char → Bool
  | [] => seqStartsWith p []
  | b :: bs => seqStartsWith p (b :: bs) || occursIn p bs

/-- Completed-run test `completed = "Finished" in content` (line 135). -/
def containsFinished (content : String) : Bool :=
  occursIn "Finished".data content.data

inductive StartupAction where
  | exitBeforeModel : StartupAction
  | deleteSaveFolder : StartupAction
  | proceedUnchanged : StartupAction
deriving DecidableEq

/-- Startup guard (lines 128-140): with `log.txt` present, a completed run
without `--reset` exits (no model constructed, folder untouched); otherwise
the folder is deleted recursively (`shutil.rmtree`) before training; with no
`log.txt` nothing is touched. -/
def startupAction (logExists : Bool) (content : String) (reset : Bool) :
    StartupAction :=
  if logExists then
    if containsFinished content && !reset then .exitBeforeModel
    else .deleteSaveFolder
  else .proceedUnchanged

lemma seqStartsWith_iff (p : List Char) :
    ∀ s : List Char, seqStartsWith p s = true ↔ ∃ r, s = p ++ r := by
  induction p with
  | nil => intro s; simp [seqStartsWith]
  | cons a as ih =>
      intro s
      cases s with
      | nil =>
          simp [seqStartsWith]
      | cons b bs =>
          rw [seqStartsWith, Bool.and_eq_true, beq_iff_eq, ih bs]
          constructor
          · rintro ⟨rfl, r, rfl⟩
            exact ⟨r, rfl⟩
          · rintro ⟨r, hr⟩
            injection hr with h1 h2
            exact ⟨h1.symm, r, h2⟩

lemma occursIn_iff (p : List Char) :
    ∀ s : List Char, occursIn p s = true ↔ ∃ l r, s = l ++ p ++ r := by
  intro s
  induction s with
  | nil =>
      rw [occursIn, seqStartsWith_iff]
      constructor
      · rintro ⟨r, hr⟩
        exact ⟨[], r, by simpa using hr⟩
      · rintro ⟨l, r, hr⟩
        rw [List.append_assoc] at hr
        obtain ⟨-, hpr⟩ := List.append_eq_nil.mp hr.symm
        exact ⟨r, by simp [hpr]⟩
  | cons b bs ih =>
      rw [occursIn, Bool.or_eq_true, seqStartsWith_iff, ih]
      constructor
      · rintro (⟨r, hr⟩ | ⟨l, r, hr⟩)
        · exact ⟨[], r, by simpa using hr⟩
        · exact ⟨b :: l, r, by simp [hr]⟩
      · rintro ⟨l, r, hr⟩
        cases l with
        | nil => exact Or.inl ⟨r, by simpa using hr⟩
        | cons c cs =>
            injection hr with h1 h2
            exact Or.inr ⟨cs, r, h2⟩

/-- C10: with `log.txt` present in the save folder, the program exits before
constructing any model, leaving the folder unchanged, exactly when the file
content contains the substring "Finished" and `--reset` was not given; in
every other case with the file present the whole save folder is deleted
recursively before training; without the file nothing is touched. -/
theorem c10_startup_guard (content : String) (reset : Bool) :
    (startupAction true content reset = StartupAction.exitBeforeModel ↔
      ((∃ l r, content.data = l ++ "Finished".data ++ r) ∧ reset = false)) ∧
    (startupAction true content reset = StartupAction.deleteSaveFolder ↔
      ¬ ((∃ l r, content.data = l ++ "Finished".data ++ r) ∧ reset = false)) ∧
    startupAction false content reset = StartupAction.proceedUnchanged := by
  have hc : containsFinished content = true ↔
      ∃ l r, content.data = l ++ "Finished".data ++ r :=
    occursIn_iff "Finished".data content.data
  refine ⟨?_, ?_, rfl⟩ <;>
    rcases hf : containsFinished content with _ | _ <;> cases reset <;>
      simp_all [startupAction]

/-- C10 witness: a finished log without reset exits untouched; an unfinished
log is deleted. -/
theorem c10_startup_guard_witness :
    startupAction true "run Finished ok" false
      = StartupAction.exitBeforeModel ∧
    startupAction true "still running" false
      = StartupAction.deleteSaveFolder := by
  have h1 := c10_startup_guard "run Finished ok" false
  have h2 := c10_startup_guard "still running" false
  constructor
  · exact h1.1.mpr ⟨⟨"run ".data, " ok".data, by decide⟩, rfl⟩
  · refine h2.2.1.mpr fun hx => ?_
    have hocc := (occursIn_iff "Finished".data "still running".data).mpr hx.1
    exact absurd hocc (by decide)

end TimeAwareRNN
